import Mathlib

/-!
Verification of the Data-Integrity-Checker dashboard (src/app.py).

The file shallowly embeds the metric computation `calculate_metrics` and the
ingestion dispatch of `update_visualizations` from src/app.py.  Python floats
are idealised as exact rationals (all decimal literals of the source, 0.6,
0.4 and 0.9, are exactly representable as rationals; no claim depends on
binary-float rounding noise).  A pandas DataFrame is embedded as a `Table`:
an ordered list of column names together with a list of rows, each row a
positional list of cell values.
-/

/-- A cell of the table: null (pandas NaN/None), a number (Python int/float,
booleans included as 0/1), or a string. -/
inductive Value where
  | null : Value
  | num : ℚ → Value
  | str : String → Value
deriving DecidableEq

/-- A row is the positional list of its cells, in column order. -/
abbrev Row := List Value

/-- A pandas DataFrame: ordered column names and the list of rows. -/
structure Table where
  cols : List String
  rows : List Row
deriving DecidableEq

/-- `df.notnull()` on one cell: true unless the cell is null. -/
def Value.isNotNull : Value → Bool
  | .null => false
  | _ => true

/-- Numeric reading of a cell, as used by `df["valid"].sum()`: pandas `sum`
skips nulls (they contribute 0) and sums numbers (booleans as 1/0, already
`num` here).  A string in a summed column would raise in pandas; the model
restricts attention to columns without strings (strings read as 0). -/
def Value.toNum : Value → ℚ
  | .num q => q
  | _ => 0

/-- The cells of column `j`, one per row (`df.iloc[:, j]`); a missing
position reads as null, matching the null padding pandas applies when
column sets are unioned. -/
def colCells (t : Table) (j : ℕ) : List Value :=
  t.rows.map (fun r => r.getD j Value.null)

/-- Per-column mean of the non-null indicator: one entry of
`df.notnull().mean()`. -/
def colMean (t : Table) (j : ℕ) : ℚ :=
  ((colCells t j).countP Value.isNotNull : ℚ) / (t.rows.length : ℚ)

/-- `df.notnull().mean().mean()`: the mean over columns of the per-column
mean of the non-null indicator.  (For a frame with rows but zero columns
pandas yields NaN; here 0/0 = 0.  The code never builds such a frame and
every completeness theorem below assumes at least one column.) -/
def notnullMeanMean (t : Table) : ℚ :=
  (∑ j ∈ Finset.range t.cols.length, colMean t j) / (t.cols.length : ℚ)

/-- The local `completeness` of `calculate_metrics`:
`(df.notnull().mean().mean()) * 100` (src/app.py line 24). -/
def completenessVal (t : Table) : ℚ :=
  notnullMeanMean t * 100

/-- Accumulator for `df.duplicated()`: a row is flagged exactly when an
identical row was seen earlier; `seen` holds the rows already scanned. -/
def dupCountAux : List Row → List Row → ℕ
  | _, [] => 0
  | seen, r :: rs => (if r ∈ seen then 1 else 0) + dupCountAux (r :: seen) rs

/-- `df.duplicated().sum()`: the number of rows identical to at least one
earlier row (pandas `keep="first"` marks every occurrence after the first). -/
def dupCount (rows : List Row) : ℕ :=
  dupCountAux [] rows

/-- The local `consistency` of `calculate_metrics`:
`100 - (df.duplicated().sum() / total_records * 100)` (src/app.py line 27). -/
def consistencyVal (t : Table) : ℚ :=
  100 - ((dupCount t.rows : ℚ) / (t.rows.length : ℚ) * 100)

/-- The local `overall_integrity`:
`0.6 * completeness + 0.4 * consistency` (src/app.py line 30). -/
def overallVal (t : Table) : ℚ :=
  0.6 * completenessVal t + 0.4 * consistencyVal t

/-- `df["valid"].sum()`: the numeric sum of the column named `valid`
(looked up by name; nulls contribute 0 per pandas skipna). -/
def validSum (t : Table) : ℚ :=
  ((colCells t (t.cols.indexOf "valid")).map Value.toNum).sum

/-- `int(0.9 * total_records)`: Python `int()` truncates toward zero, which
on the non-negative value `0.9 * n` is the floor (`Rat.floor`, the
executable floor on rationals). -/
def fallbackValid (n : ℕ) : ℤ :=
  Rat.floor ((0.9 : ℚ) * (n : ℚ))

/-- The local `valid_records`:
`df["valid"].sum() if "valid" in df.columns else int(0.9 * total_records)`
(src/app.py line 33).  The result is rational because a float-valued
`valid` column sums to a float. -/
def validRecordsVal (t : Table) : ℚ :=
  if "valid" ∈ t.cols then validSum t else (fallbackValid t.rows.length : ℚ)

/-- Round-half-to-even on a rational, Python's `round` tie rule. -/
def roundHalfEven (x : ℚ) : ℤ :=
  let f := Rat.floor x
  if x - (f : ℚ) < 1/2 then f
  else if 1/2 < x - (f : ℚ) then f + 1
  else if f % 2 = 0 then f else f + 1

/-- Python `round(x, 2)` idealised on rationals. -/
def round2 (x : ℚ) : ℚ :=
  (roundHalfEven (x * 100) : ℚ) / 100

/-- The dictionary returned by `calculate_metrics`.  The record counts are
rational because pandas column sums need not be integral. -/
structure MetricsResult where
  completeness : ℚ
  consistency : ℚ
  overall_integrity : ℚ
  valid_records : ℚ
  invalid_records : ℚ
deriving DecidableEq

/-- `calculate_metrics` (src/app.py lines 18-42): zero-row early return,
then the three percentage metrics rounded to 2 decimal places and the
valid/invalid record counts. -/
def calculate_metrics (t : Table) : MetricsResult :=
  if t.rows.length = 0 then
    { completeness := 0, consistency := 0, overall_integrity := 0,
      valid_records := 0, invalid_records := 0 }
  else
    { completeness := round2 (completenessVal t),
      consistency := round2 (consistencyVal t),
      overall_integrity := round2 (overallVal t),
      valid_records := validRecordsVal t,
      invalid_records := (t.rows.length : ℚ) - validRecordsVal t }

/-- Spec-side duplicate count: the number of positions whose row equals the
row at some strictly earlier position. -/
def specDupCount (rows : List Row) : ℕ :=
  (List.range rows.length).countP
    (fun i => decide (∃ j < i, rows.getD j [] = rows.getD i []))

/-- Spec-side cell count: the number of non-null cells, counted row by row. -/
def totalNonNull (t : Table) : ℕ :=
  (t.rows.map (fun r => r.countP Value.isNotNull)).sum

/-- Python `name.endswith(suffix)`, on the underlying character lists. -/
def strEndsWith (s suffix : String) : Bool :=
  List.isSuffixOf suffix.data s.data

/-- A filename the upload handler recognizes: `.csv`, `.xlsx` or `.pdf`
(src/app.py lines 134-144). -/
def recognizedExt (name : String) : Bool :=
  strEndsWith name ".csv" || strEndsWith name ".xlsx" || strEndsWith name ".pdf"

/-- The per-file branch of `update_visualizations`: dispatch on the filename
extension to one of the three parsers (external libraries, taken as
parameters), or skip the file (`continue`) for any other extension. -/
def ingestOne {α : Type} (pc px pp : α → Table) (name : String) (content : α) :
    Option Table :=
  if strEndsWith name ".csv" then some (pc content)
  else if strEndsWith name ".xlsx" then some (px content)
  else if strEndsWith name ".pdf" then some (pp content)
  else none

/-- Modelled from the spec: the column-set union of `pd.concat` (an external
library call), "column sets unioned (missing cells become null)", keeping
first-occurrence order. -/
def unionCols (ts : List Table) : List String :=
  (ts.map Table.cols).foldl
    (fun acc cs => acc ++ cs.filter (fun c => decide (c ∉ acc))) []

/-- Modelled from the spec: re-express one row over the combined column
list; a column the source table lacks reads as null. -/
def reindexRow (cols tcols : List String) (r : Row) : Row :=
  cols.map (fun c => r.getD (tcols.indexOf c) Value.null)

/-- Modelled from the spec: `pd.concat(all_data, ignore_index=True)` —
row-wise concatenation over the unioned column list. -/
def concatTables (ts : List Table) : Table :=
  let cols := unionCols ts
  { cols := cols,
    rows := (ts.map (fun t => t.rows.map (reindexRow cols t.cols))).flatten }

/-- The ingestion portion of `update_visualizations` (src/app.py lines
127-152): every uploaded file is dispatched by extension, unrecognized ones
are skipped, and `pd.concat(all_data) if all_data else pd.DataFrame()`
combines the parsed tables (the empty DataFrame has zero rows and zero
columns). -/
def update_visualizations {α : Type} (pc px pp : α → Table)
    (files : List (String × α)) : Table :=
  let all_data := files.filterMap (fun f => ingestOne pc px pp f.1 f.2)
  if all_data = [] then { cols := [], rows := [] } else concatTables all_data

/-- Spec-side count of truthy entries of the `valid` column: each
non-zero/true value counted as 1, every other value as 0. -/
def truthyCount (t : Table) : ℕ :=
  (colCells t (t.cols.indexOf "valid")).countP (fun v => decide (Value.toNum v ≠ 0))

/-- A table with a column but no rows. -/
def tzero : Table := { cols := ["a"], rows := [] }

/-- A one-row table without a `valid` column. -/
def t1 : Table := { cols := ["a"], rows := [[Value.num 1]] }

/-- A ten-row table without a `valid` column. -/
def t10 : Table :=
  { cols := ["a"],
    rows := [[Value.num 0], [Value.num 1], [Value.num 2], [Value.num 3],
             [Value.num 4], [Value.num 5], [Value.num 6], [Value.num 7],
             [Value.num 8], [Value.num 9]] }

/-- A four-row table in which rows 2 and 4 are identical and no other
duplicates exist. -/
def ex4 : Table :=
  { cols := ["a"],
    rows := [[Value.num 1], [Value.num 2], [Value.num 3], [Value.num 2]] }

/-- A 2x2 table with no null cells and no duplicate rows. -/
def tFull : Table :=
  { cols := ["a", "b"],
    rows := [[Value.num 1, Value.num 2], [Value.num 3, Value.num 4]] }

/-- A table whose `valid` column holds the values [1, 1, 0, 1]. -/
def tvalid : Table :=
  { cols := ["valid"],
    rows := [[Value.num 1], [Value.num 1], [Value.num 0], [Value.num 1]] }

/-- A one-row table whose `valid` column holds the single value 2. -/
def tv2 : Table := { cols := ["valid"], rows := [[Value.num 2]] }

/-- A one-row table whose `valid` column holds the single value 1/2. -/
def thalf : Table := { cols := ["valid"], rows := [[Value.num (1/2)]] }

lemma ratFloor_eq_intFloor (q : ℚ) : Rat.floor q = ⌊q⌋ := by
  rw [Rat.floor_def', Rat.floor_def]

lemma roundHalfEven_intCast (n : ℤ) : roundHalfEven ((n : ℚ)) = n := by
  unfold roundHalfEven
  rw [ratFloor_eq_intFloor, Int.floor_intCast]
  norm_num

lemma round2_intCast (n : ℤ) : round2 ((n : ℚ)) = (n : ℚ) := by
  unfold round2
  have h : ((n : ℚ)) * 100 = ((n * 100 : ℤ) : ℚ) := by push_cast; ring
  rw [h, roundHalfEven_intCast]
  push_cast
  ring

lemma calculate_metrics_pos (t : Table) (h : t.rows ≠ []) :
    calculate_metrics t =
      { completeness := round2 (completenessVal t),
        consistency := round2 (consistencyVal t),
        overall_integrity := round2 (overallVal t),
        valid_records := validRecordsVal t,
        invalid_records := (t.rows.length : ℚ) - validRecordsVal t } := by
  unfold calculate_metrics
  rw [if_neg]
  simpa [List.length_eq_zero] using h

lemma fallbackValid_eq (n : ℕ) : fallbackValid n = ((9 * n / 10 : ℕ) : ℤ) := by
  unfold fallbackValid
  rw [ratFloor_eq_intFloor]
  have h : (0.9 : ℚ) * (n : ℚ) = (((9 * n : ℕ) : ℤ) : ℚ) / (((10 : ℕ)) : ℚ) := by
    push_cast
    ring
  rw [h, Rat.floor_intCast_div_natCast]
  norm_cast

/-- C2: a table with zero rows yields the exact zero-valued result. -/
theorem zero_rows_zero_metrics (t : Table) (h : t.rows = []) :
    calculate_metrics t =
      { completeness := 0, consistency := 0, overall_integrity := 0,
        valid_records := 0, invalid_records := 0 } := by
  unfold calculate_metrics
  rw [if_pos (by rw [h]; rfl)]

/-- Witness for C2 at the concrete zero-row table. -/
theorem zero_rows_zero_metrics_witness :
    calculate_metrics tzero =
      { completeness := 0, consistency := 0, overall_integrity := 0,
        valid_records := 0, invalid_records := 0 } :=
  zero_rows_zero_metrics tzero rfl

/-- C3: for every table, valid_records + invalid_records equals the number
of rows. -/
theorem valid_plus_invalid (t : Table) :
    (calculate_metrics t).valid_records + (calculate_metrics t).invalid_records =
      (t.rows.length : ℚ) := by
  by_cases h : t.rows = []
  · rw [zero_rows_zero_metrics t h, h]
    norm_num
  · rw [calculate_metrics_pos t h]
    ring

/-- C1 (amended): for every table with at least one row and no column named
`valid`, valid_records is the truncation `int(0.9 * total_rows)`, i.e. the
floor `9 * total_rows / 10`; in particular a 10-row table yields 9. -/
theorem fallback_trunc (t : Table) (h1 : t.rows ≠ []) (h2 : "valid" ∉ t.cols) :
    (calculate_metrics t).valid_records = ((9 * t.rows.length / 10 : ℕ) : ℚ) ∧
    (t.rows.length = 10 → (calculate_metrics t).valid_records = 9) := by
  have hm : (calculate_metrics t).valid_records = validRecordsVal t := by
    rw [calculate_metrics_pos t h1]
  have hv : validRecordsVal t = ((9 * t.rows.length / 10 : ℕ) : ℚ) := by
    unfold validRecordsVal
    rw [if_neg h2, fallbackValid_eq]
    norm_cast
  refine ⟨by rw [hm, hv], fun h10 => ?_⟩
  rw [hm, hv, h10]
  norm_num

/-- C1 counterexample: on the one-row table `t1` (no `valid` column) the
code returns 0, not `round(0.9 * 1) = 1` as the claim states. -/
theorem fallback_not_round :
    (calculate_metrics t1).valid_records ≠
      ((round ((0.9 : ℚ) * ((t1.rows.length : ℕ) : ℚ)) : ℤ) : ℚ) := by
  have h0 : (calculate_metrics t1).valid_records = 0 := by
    rw [calculate_metrics_pos t1 (by decide)]
    show validRecordsVal t1 = 0
    unfold validRecordsVal
    rw [if_neg (by decide), fallbackValid_eq]
    have hl1 : t1.rows.length = 1 := rfl
    rw [hl1]
    norm_num
  rw [h0]
  have hl : t1.rows.length = 1 := rfl
  rw [hl]
  norm_num [round_eq]

/-- Witness for C1 at the concrete ten-row table with no `valid` column. -/
theorem fallback_trunc_witness :
    t10.rows ≠ [] ∧ "valid" ∉ t10.cols ∧
      (calculate_metrics t10).valid_records = 9 :=
  ⟨by decide, by decide, (fallback_trunc t10 (by decide) (by decide)).2 rfl⟩

/-- C10: valid_records is not clamped to the row count: on the one-row table
whose `valid` column holds 2, valid_records exceeds the row count and
invalid_records is strictly negative. -/
theorem no_clamping :
    "valid" ∈ tv2.cols ∧
    (calculate_metrics tv2).valid_records > (tv2.rows.length : ℚ) ∧
    (calculate_metrics tv2).invalid_records < 0 := by
  have hidx : tv2.cols.indexOf "valid" = 0 := rfl
  have hv : validRecordsVal tv2 = 2 := by
    rw [validRecordsVal, if_pos (by decide)]
    simp [validSum, colCells, hidx, tv2, Value.toNum]
  have hm := calculate_metrics_pos tv2 (by decide)
  have hl : tv2.rows.length = 1 := rfl
  refine ⟨by decide, ?_, ?_⟩
  · rw [hm]
    show validRecordsVal tv2 > _
    rw [hv, hl]
    norm_num
  · rw [hm]
    show (tv2.rows.length : ℚ) - validRecordsVal tv2 < 0
    rw [hv, hl]
    norm_num

lemma dupCountAux_le (rs : List Row) : ∀ seen, dupCountAux seen rs ≤ rs.length := by
  induction rs with
  | nil => intro seen; simp [dupCountAux]
  | cons r rs ih =>
    intro seen
    rw [dupCountAux, List.length_cons]
    have := ih (r :: seen)
    split <;> omega

lemma dupCount_le (r : Row) (rs : List Row) : dupCount (r :: rs) ≤ rs.length := by
  rw [dupCount, dupCountAux, if_neg (List.not_mem_nil r)]
  simpa using dupCountAux_le rs [r]

lemma exists_lt_succ_iff (Q : ℕ → Prop) (i : ℕ) :
    (∃ j < i + 1, Q j) ↔ Q 0 ∨ ∃ j < i, Q (j + 1) := by
  constructor
  · rintro ⟨j, hj, hq⟩
    cases j with
    | zero => exact Or.inl hq
    | succ k => exact Or.inr ⟨k, by omega, hq⟩
  · rintro (h | ⟨j, hj, hq⟩)
    · exact ⟨0, by omega, h⟩
    · exact ⟨j + 1, by omega, hq⟩

lemma dupCountAux_eq (rs : List Row) : ∀ seen,
    dupCountAux seen rs =
      (List.range rs.length).countP
        (fun i => decide (rs.getD i [] ∈ seen ∨
          ∃ j < i, rs.getD j [] = rs.getD i [])) := by
  induction rs with
  | nil => intro seen; simp [dupCountAux]
  | cons r rs ih =>
    intro seen
    rw [dupCountAux, ih (r :: seen), List.length_cons, List.range_succ_eq_map,
      List.countP_cons, List.countP_map]
    have hzero :
        (decide ((r :: rs).getD 0 [] ∈ seen ∨
          ∃ j : ℕ, j < 0 ∧ (r :: rs).getD j [] = (r :: rs).getD 0 [])) =
          (decide (r ∈ seen)) := by
      simp
    have hcongr :
        (List.range rs.length).countP
          (fun (i : ℕ) => decide (rs.getD i [] ∈ r :: seen ∨
            ∃ j : ℕ, j < i ∧ rs.getD j [] = rs.getD i [])) =
        (List.range rs.length).countP
          ((fun (i : ℕ) => decide ((r :: rs).getD i [] ∈ seen ∨
            ∃ j : ℕ, j < i ∧ (r :: rs).getD j [] = (r :: rs).getD i [])) ∘ Nat.succ) := by
      apply List.countP_congr
      intro i _
      simp only [Function.comp_apply, decide_eq_true_eq, List.getD_cons_succ,
        List.getD_cons_zero, List.mem_cons, exists_lt_succ_iff]
      rw [show (rs.getD i [] = r) ↔ (r = rs.getD i []) from eq_comm]
      tauto
    rw [hcongr, hzero]
    simp only [decide_eq_true_eq]
    omega

lemma dupCount_eq_spec (rows : List Row) : dupCount rows = specDupCount rows := by
  rw [dupCount, specDupCount, dupCountAux_eq rows []]
  apply List.countP_congr
  intro i _
  simp

/-- C4: for every non-empty table, the (pre-rounding) consistency equals
100 minus the percentage of rows identical to at least one earlier row,
a duplicate-free table yields consistency 100, and the returned field is
the 2-decimal rounding of that value. -/
theorem consistency_dup_spec (t : Table) (h : t.rows ≠ []) :
    consistencyVal t =
      100 - (specDupCount t.rows : ℚ) / (t.rows.length : ℚ) * 100 ∧
    (specDupCount t.rows = 0 → consistencyVal t = 100) ∧
    (calculate_metrics t).consistency = round2 (consistencyVal t) := by
  have hd : dupCount t.rows = specDupCount t.rows := dupCount_eq_spec t.rows
  refine ⟨by rw [consistencyVal, hd], ?_, ?_⟩
  · intro h0
    rw [consistencyVal, hd, h0]
    norm_num
  · rw [calculate_metrics_pos t h]

/-- Witness for C4: the four-row table with rows 2 and 4 identical yields
returned consistency 75. -/
theorem consistency_dup_spec_witness :
    (calculate_metrics ex4).consistency = round2 (consistencyVal ex4) ∧
    (calculate_metrics ex4).consistency = 75 := by
  have h := (consistency_dup_spec ex4 (by decide)).2.2
  refine ⟨h, ?_⟩
  have hdup : dupCount ex4.rows = 1 := by
    norm_num [ex4, dupCount, dupCountAux, Value.num.injEq]
  have hc : consistencyVal ex4 = 75 := by
    rw [consistencyVal, hdup]
    have hl : ex4.rows.length = 4 := rfl
    rw [hl]
    norm_num
  rw [h, hc]
  have h75 : (75 : ℚ) = ((75 : ℤ) : ℚ) := by norm_cast
  rw [h75, round2_intCast]

/-- C9: for every non-empty table the pre-rounding consistency is strictly
positive and at most 100, since the first occurrence of a row value is
never counted as a duplicate. -/
theorem consistency_bounds (t : Table) (h : t.rows ≠ []) :
    0 < consistencyVal t ∧ consistencyVal t ≤ 100 := by
  obtain ⟨r, rs, hrr⟩ : ∃ r rs, t.rows = r :: rs := by
    cases hr : t.rows with
    | nil => exact absurd hr h
    | cons a l => exact ⟨a, l, rfl⟩
  have hd : dupCount t.rows ≤ rs.length := by rw [hrr]; exact dupCount_le r rs
  have hnq : ((t.rows.length : ℕ) : ℚ) = (rs.length : ℚ) + 1 := by
    rw [hrr]
    push_cast [List.length_cons]
    ring
  have hdq : (dupCount t.rows : ℚ) ≤ (rs.length : ℚ) := by exact_mod_cast hd
  have hpos : (0 : ℚ) < (rs.length : ℚ) + 1 := by positivity
  rw [consistencyVal, hnq]
  have hfrac : (dupCount t.rows : ℚ) / ((rs.length : ℚ) + 1) * 100 < 100 := by
    have h1 : (dupCount t.rows : ℚ) / ((rs.length : ℚ) + 1) < 1 :=
      (div_lt_one hpos).mpr (by linarith)
    nlinarith
  have hfrac0 : 0 ≤ (dupCount t.rows : ℚ) / ((rs.length : ℚ) + 1) * 100 := by
    positivity
  constructor <;> linarith

/-- Witness for C9 at a concrete one-row table. -/
theorem consistency_bounds_witness :
    0 < consistencyVal t1 ∧ consistencyVal t1 ≤ 100 :=
  consistency_bounds t1 (by decide)

lemma sum_indicator_eq_countP (r : Row) :
    (∑ j ∈ Finset.range r.length,
      (if Value.isNotNull (r.getD j Value.null) then (1 : ℕ) else 0)) =
      r.countP Value.isNotNull := by
  induction r with
  | nil => simp
  | cons a r ih =>
    rw [List.length_cons, Finset.sum_range_succ']
    simp only [List.getD_cons_succ, List.getD_cons_zero]
    rw [ih, List.countP_cons]

lemma colwise_aux (c : ℕ) (rows : List Row) (h : ∀ r ∈ rows, r.length = c) :
    (∑ j ∈ Finset.range c,
      (rows.map (fun r => r.getD j Value.null)).countP Value.isNotNull) =
      (rows.map (fun r => r.countP Value.isNotNull)).sum := by
  induction rows with
  | nil => simp
  | cons r rows ih =>
    have hr : r.length = c := h r (List.mem_cons_self r rows)
    have hrest : ∀ x ∈ rows, x.length = c := fun x hx => h x (List.mem_cons_of_mem r hx)
    simp only [List.map_cons, List.countP_cons, List.sum_cons]
    rw [Finset.sum_add_distrib, ih hrest]
    have hind := sum_indicator_eq_countP r
    rw [hr] at hind
    rw [hind]
    omega

lemma completeness_as_cells (t : Table) (hrect : ∀ r ∈ t.rows, r.length = t.cols.length) :
    completenessVal t =
      (totalNonNull t : ℚ) / ((t.rows.length : ℚ) * (t.cols.length : ℚ)) * 100 := by
  have hcount : (∑ j ∈ Finset.range t.cols.length,
      (((colCells t j).countP Value.isNotNull : ℕ) : ℚ)) = (totalNonNull t : ℚ) := by
    have h := colwise_aux t.cols.length t.rows hrect
    simp only [colCells, totalNonNull]
    exact_mod_cast h
  have hsum : (∑ j ∈ Finset.range t.cols.length, colMean t j)
      = (totalNonNull t : ℚ) / (t.rows.length : ℚ) := by
    simp only [colMean]
    rw [← Finset.sum_div, hcount]
  rw [completenessVal, notnullMeanMean, hsum, div_div]

/-- C5: for every non-empty rectangular table with at least one column, the
(pre-rounding) completeness is the percentage of non-null cells over all
cells; and a table with no null cells and no duplicate rows returns
completeness, consistency and overall_integrity all equal to 100. -/
theorem completeness_cell_percentage (t : Table) (hr : t.rows ≠ []) (hc : t.cols ≠ [])
    (hrect : ∀ r ∈ t.rows, r.length = t.cols.length) :
    completenessVal t =
      (totalNonNull t : ℚ) / ((t.rows.length : ℚ) * (t.cols.length : ℚ)) * 100 ∧
    ((∀ r ∈ t.rows, ∀ v ∈ r, v ≠ Value.null) → specDupCount t.rows = 0 →
      (calculate_metrics t).completeness = 100 ∧
      (calculate_metrics t).consistency = 100 ∧
      (calculate_metrics t).overall_integrity = 100) := by
  refine ⟨completeness_as_cells t hrect, fun hnull hdup => ?_⟩
  have hnpos : 0 < t.rows.length := List.length_pos.mpr hr
  have hcpos : 0 < t.cols.length := List.length_pos.mpr hc
  have hrowfull : ∀ r ∈ t.rows, r.countP Value.isNotNull = t.cols.length := by
    intro r hrmem
    rw [List.countP_eq_length.mpr, hrect r hrmem]
    intro v hv
    have := hnull r hrmem v hv
    cases v with
    | null => exact absurd rfl this
    | num q => rfl
    | str s => rfl
  have htot : totalNonNull t = t.rows.length * t.cols.length := by
    rw [totalNonNull]
    have hrepl : t.rows.map (fun r => r.countP Value.isNotNull) =
        List.replicate t.rows.length t.cols.length := by
      have hlen : (t.rows.map (fun r => r.countP Value.isNotNull)).length =
          t.rows.length := List.length_map _ _
      rw [← hlen]
      apply List.eq_replicate_of_mem
      intro b hb
      rcases List.mem_map.mp hb with ⟨r, hrmem, hbr⟩
      rw [← hbr]
      exact hrowfull r hrmem
    rw [hrepl, List.sum_replicate, smul_eq_mul]
  have hq1 : (0 : ℚ) < (t.rows.length : ℚ) := by exact_mod_cast hnpos
  have hq2 : (0 : ℚ) < (t.cols.length : ℚ) := by exact_mod_cast hcpos
  have hcomp : completenessVal t = 100 := by
    rw [completeness_as_cells t hrect, htot]
    push_cast
    rw [div_self (by positivity)]
    norm_num
  have hcons : consistencyVal t = 100 := by
    have hd : dupCount t.rows = 0 := by rw [dupCount_eq_spec, hdup]
    rw [consistencyVal, hd]
    norm_num
  have hover : overallVal t = 100 := by
    rw [overallVal, hcomp, hcons]
    norm_num
  have h100 : round2 (100 : ℚ) = 100 := by exact_mod_cast round2_intCast 100
  rw [calculate_metrics_pos t hr]
  exact ⟨by rw [hcomp]; exact h100, by rw [hcons]; exact h100,
    by rw [hover]; exact h100⟩

/-- Witness for C5: a 2x2 table with no nulls and no duplicates returns 100
for all three percentage fields. -/
theorem completeness_cell_percentage_witness :
    (calculate_metrics tFull).completeness = 100 ∧
    (calculate_metrics tFull).consistency = 100 ∧
    (calculate_metrics tFull).overall_integrity = 100 := by
  have hdup : specDupCount tFull.rows = 0 := by
    rw [← dupCount_eq_spec]
    norm_num [dupCount, dupCountAux, tFull, Value.num.injEq]
  exact (completeness_cell_percentage tFull (by decide) (by decide) (by decide)).2
    (by decide) hdup

/-- C6 counterexample: on the table whose `valid` column holds the single
value 2, the code returns the arithmetic sum 2, not the count (1) of
non-zero entries as the claim states. -/
theorem valid_sum_not_truthy :
    (calculate_metrics tv2).valid_records ≠ (truthyCount tv2 : ℚ) := by
  have hidx : tv2.cols.indexOf "valid" = 0 := rfl
  have hv : (calculate_metrics tv2).valid_records = 2 := by
    rw [calculate_metrics_pos tv2 (by decide)]
    show validRecordsVal tv2 = 2
    rw [validRecordsVal, if_pos (by decide)]
    simp [validSum, colCells, hidx, tv2, Value.toNum]
  have ht : truthyCount tv2 = 1 := by
    rw [truthyCount, hidx]
    norm_num [colCells, tv2, Value.toNum]
  rw [hv, ht]
  norm_num

/-- C6 (amended): whenever a column named `valid` exists, valid_records is
the arithmetic numeric sum of the column (not the count of truthy values). -/
theorem valid_records_is_sum (t : Table) (h : "valid" ∈ t.cols) :
    (calculate_metrics t).valid_records = validSum t := by
  by_cases hz : t.rows = []
  · rw [zero_rows_zero_metrics t hz]
    show (0 : ℚ) = validSum t
    rw [validSum, colCells, hz]
    simp
  · rw [calculate_metrics_pos t hz]
    show validRecordsVal t = validSum t
    rw [validRecordsVal, if_pos h]

/-- Witness for C6: the `valid` column [1,1,0,1] gives valid_records 3. -/
theorem valid_records_is_sum_witness :
    "valid" ∈ tvalid.cols ∧ (calculate_metrics tvalid).valid_records = 3 := by
  have h := valid_records_is_sum tvalid (by decide)
  refine ⟨by decide, ?_⟩
  rw [h]
  have hidx : tvalid.cols.indexOf "valid" = 0 := rfl
  norm_num [validSum, colCells, hidx, tvalid, Value.toNum]

lemma eq_intCast_of_den_one (q : ℚ) (h : q.den = 1) : ∃ k : ℤ, q = (k : ℚ) := by
  refine ⟨q.num, ?_⟩
  conv_lhs => rw [← Rat.num_div_den q]
  rw [h]
  simp

lemma sum_integral (l : List ℚ) (h : ∀ q ∈ l, ∃ k : ℤ, q = (k : ℚ)) :
    ∃ k : ℤ, l.sum = (k : ℚ) := by
  induction l with
  | nil => exact ⟨0, by simp⟩
  | cons a l ih =>
    rcases h a (List.mem_cons_self a l) with ⟨ka, hka⟩
    rcases ih (fun q hq => h q (List.mem_cons_of_mem a hq)) with ⟨kl, hkl⟩
    refine ⟨ka + kl, ?_⟩
    rw [List.sum_cons, hka, hkl]
    push_cast
    ring

/-- C7 counterexample: on the table whose `valid` column holds 1/2, the
returned valid_records is not an integer, refuting the claim that the
record-count fields are integers for every table. -/
theorem valid_records_not_integral :
    ¬ ∃ k : ℤ, (calculate_metrics thalf).valid_records = (k : ℚ) := by
  have hidx : thalf.cols.indexOf "valid" = 0 := rfl
  have hv : (calculate_metrics thalf).valid_records = 1 / 2 := by
    rw [calculate_metrics_pos thalf (by decide)]
    show validRecordsVal thalf = 1 / 2
    rw [validRecordsVal, if_pos (by decide)]
    norm_num [validSum, colCells, hidx, thalf, Value.toNum]
  rw [hv]
  rintro ⟨k, hk⟩
  have hd : ((k : ℚ)).den = 1 := Rat.den_intCast k
  rw [← hk] at hd
  norm_num at hd

/-- C7 (amended): the three percentage fields are always exact multiples of
1/100 (2-decimal rounding), and the record-count fields are integers
provided every value of the `valid` column (when present) is integral. -/
theorem fields_rounded_and_integral (t : Table)
    (h : ∀ v ∈ colCells t (t.cols.indexOf "valid"), (Value.toNum v).den = 1) :
    (∃ z : ℤ, (calculate_metrics t).completeness = (z : ℚ) / 100) ∧
    (∃ z : ℤ, (calculate_metrics t).consistency = (z : ℚ) / 100) ∧
    (∃ z : ℤ, (calculate_metrics t).overall_integrity = (z : ℚ) / 100) ∧
    (∃ k : ℤ, (calculate_metrics t).valid_records = (k : ℚ)) ∧
    (∃ k : ℤ, (calculate_metrics t).invalid_records = (k : ℚ)) := by
  by_cases hz : t.rows = []
  · rw [zero_rows_zero_metrics t hz]
    exact ⟨⟨0, by norm_num⟩, ⟨0, by norm_num⟩, ⟨0, by norm_num⟩,
      ⟨0, by norm_num⟩, ⟨0, by norm_num⟩⟩
  · rw [calculate_metrics_pos t hz]
    have hvalid : ∃ k : ℤ, validRecordsVal t = (k : ℚ) := by
      rw [validRecordsVal]
      split
      · apply sum_integral
        intro q hq
        rcases List.mem_map.mp hq with ⟨v, hv, hqv⟩
        rcases eq_intCast_of_den_one (Value.toNum v) (h v hv) with ⟨k, hk⟩
        exact ⟨k, by rw [← hqv, hk]⟩
      · exact ⟨fallbackValid t.rows.length, rfl⟩
    rcases hvalid with ⟨k, hk⟩
    refine ⟨⟨roundHalfEven (completenessVal t * 100), rfl⟩,
      ⟨roundHalfEven (consistencyVal t * 100), rfl⟩,
      ⟨roundHalfEven (overallVal t * 100), rfl⟩,
      ⟨k, hk⟩, ⟨(t.rows.length : ℤ) - k, ?_⟩⟩
    show (t.rows.length : ℚ) - validRecordsVal t = _
    rw [hk]
    push_cast
    ring

/-- Witness for C7 at the table whose `valid` column is [1,1,0,1]. -/
theorem fields_rounded_and_integral_witness :
    (∀ v ∈ colCells tvalid (tvalid.cols.indexOf "valid"), (Value.toNum v).den = 1) ∧
    (∃ k : ℤ, (calculate_metrics tvalid).valid_records = (k : ℚ)) ∧
    (∃ z : ℤ, (calculate_metrics tvalid).completeness = (z : ℚ) / 100) := by
  have hh : ∀ v ∈ colCells tvalid (tvalid.cols.indexOf "valid"),
      (Value.toNum v).den = 1 := by decide
  have hmain := fields_rounded_and_integral tvalid hh
  exact ⟨hh, hmain.2.2.2.1, hmain.1⟩

/-- C8: a file whose name ends in none of the recognized extensions is
silently skipped (contributes nothing), and when no uploaded file is
recognized the combined result is the empty table with zero rows and zero
columns. -/
theorem unrecognized_skipped {α : Type} (pc px pp : α → Table)
    (files : List (String × α)) (h : ∀ f ∈ files, recognizedExt f.1 = false) :
    (∀ f ∈ files, ingestOne pc px pp f.1 f.2 = none) ∧
    update_visualizations pc px pp files = { cols := [], rows := [] } := by
  have hnone : ∀ f ∈ files, ingestOne pc px pp f.1 f.2 = none := by
    intro f hf
    have hr := h f hf
    rw [recognizedExt] at hr
    simp only [Bool.or_eq_false_iff] at hr
    rw [ingestOne, if_neg (by simp [hr.1.1]), if_neg (by simp [hr.1.2]),
      if_neg (by simp [hr.2])]
  refine ⟨hnone, ?_⟩
  simp only [update_visualizations]
  rw [List.filterMap_eq_nil_iff.mpr hnone, if_pos rfl]

/-- Witness for C8: two unrecognized files with parsers that would return a
non-empty table if they were ever invoked. -/
theorem unrecognized_skipped_witness :
    (∀ f ∈ [("notes.txt", (0 : ℕ)), ("report.docx", 1)], recognizedExt f.1 = false) ∧
    update_visualizations (fun _ : ℕ => tFull) (fun _ => tFull) (fun _ => tFull)
      [("notes.txt", 0), ("report.docx", 1)] = { cols := [], rows := [] } := by
  have hh : ∀ f ∈ [("notes.txt", (0 : ℕ)), ("report.docx", 1)],
      recognizedExt f.1 = false := by decide
  exact ⟨hh, (unrecognized_skipped _ _ _ _ hh).2⟩
